import Mathlib

/-!
Verification of the `cy.component` command of react-gears-cypress
(`src/find/component.ts`, shipped here as `src/index.ts`).

The command's own logic (argument parsing, option normalization, validation,
the two locate paths, the retry hand-off) is embedded directly from the
source.  Collaborators that live outside the provided sources — the
`interfaces` type guards, the `internals/driver` and `internals/text`
helpers, jQuery query semantics and the host runner's retry facility — are
modelled from the spec; each such definition carries a doc comment saying so.
-/

namespace Gears

/-- An options record as a caller may supply it: each field may be present
(`some`) or absent (`none`), mirroring an untyped JS object literal. -/
structure OptsRec where
  all : Option Bool
  log : Option Bool
  timeout : Option Nat
deriving DecidableEq, Repr

/-- The universe of untyped JS values that can appear among the command's
trailing variadic arguments. -/
inductive JSVal where
  | undef : JSVal
  | nullV : JSVal
  | bool : Bool → JSVal
  | num : Nat → JSVal
  | str : String → JSVal
  | regex : String → JSVal
  | opts : OptsRec → JSVal
deriving DecidableEq, Repr

/-- JS truthiness of a `JSVal`. -/
def truthy : JSVal → Bool
  | JSVal.undef => false
  | JSVal.nullV => false
  | JSVal.bool b => b
  | JSVal.num n => n != 0
  | JSVal.str s => s != ""
  | JSVal.regex _ => true
  | JSVal.opts _ => true

/-- Modelled from the spec: the `isText` guard of `interfaces` (not under
`src/`); a value is text-like when it is a string or a pattern. -/
def isText : JSVal → Bool
  | JSVal.str _ => true
  | JSVal.regex _ => true
  | _ => false

/-- `getOptions` from `src/index.ts`: with exactly one trailing argument,
return it when it is truthy and not text-like, else fall through to
`undefined`; in every other case return `rest[1]` (`undefined` when absent). -/
def getOptions (rest : List JSVal) : JSVal :=
  match rest with
  | [a] => if truthy a && !isText a then a else JSVal.undef
  | _ => rest.getD 1 JSVal.undef

/-- `getText` from `src/index.ts`: `rest[0]` when it is text-like, else
`undefined`. -/
def getText (rest : List JSVal) : JSVal :=
  if isText (rest.getD 0 JSVal.undef) then rest.getD 0 JSVal.undef
  else JSVal.undef

/-- The defaults record built inside `normalizeOptions`; `ambientTimeout`
stands for `Cypress.config().defaultCommandTimeout`. -/
def deflRec (ambientTimeout : Nat) : OptsRec :=
  { all := some false, log := some true, timeout := some ambientTimeout }

/-- `normalizeOptions` from `src/index.ts`: `getOptions(rest) || defl` —
the caller's options value when truthy, otherwise the fresh defaults. -/
def normalizeOptions (ambientTimeout : Nat) (rest : List JSVal) : JSVal :=
  let o := getOptions rest
  if truthy o then o else JSVal.opts (deflRec ambientTimeout)

/-- Reading `options.all` off an arbitrary JS value: `undefined` unless the
value is an options record carrying the field. -/
def allField : JSVal → Option Bool
  | JSVal.opts o => o.all
  | _ => none

/-- Reading `options.log` off an arbitrary JS value. -/
def logField : JSVal → Option Bool
  | JSVal.opts o => o.log
  | _ => none

/-- Reading `options.timeout` off an arbitrary JS value. -/
def timeoutField : JSVal → Option Nat
  | JSVal.opts o => o.timeout
  | _ => none

/-- Truthiness of `options.all` as used in `!options.all`. -/
def jsAll (options : JSVal) : Bool :=
  match allField options with
  | some b => b
  | none => false

/-- The gate on log-entry creation, `options.log !== false` from
`src/index.ts` line 130: true unless the field is present and `false`. -/
def logGate (options : JSVal) : Bool :=
  match logField options with
  | some false => false
  | _ => true

/-- The effective timeout handed to the host runner: `options.timeout` when
present, else the runner's ambient default (modelled from the spec's
"ambient default retry budget"). -/
def timeoutOf (ambientTimeout : Nat) (options : JSVal) : Nat :=
  (timeoutField options).getD ambientTimeout

/-- A DOM element: its tree position (path of child indices from the root,
document order = order of the ambient element list), the selectors it
matches, and its rendered inner text. -/
structure Element where
  path : List Nat
  sel : List String
  innerText : String
deriving DecidableEq, Repr

/-- `child` lies strictly inside `parent` (its path strictly extends the
parent's). -/
def strictDesc (child parent : List Nat) : Bool :=
  parent.isPrefixOf child && !(child == parent)

/-- Modelled from the spec: jQuery `$subject.find(query)` (an external
collaborator) — the descendants of any subject element matching the
selector, in document order. -/
def jqFind (dom : List Element) (subject : List Element) (query : String) :
    List Element :=
  dom.filter fun e =>
    e.sel.contains query && subject.any fun s => strictDesc e.path s.path

/-- `pre` is a prefix of the character list. -/
def charsPrefix : List Char → List Char → Bool
  | [], _ => true
  | _ :: _, [] => false
  | a :: as, b :: bs => a == b && charsPrefix as bs

/-- `needle` occurs as a contiguous run inside the character list. -/
def charsContain (needle : List Char) : List Char → Bool
  | [] => charsPrefix needle []
  | c :: cs => charsPrefix needle (c :: cs) || charsContain needle cs

/-- `needle` occurs as a substring of `hay`. -/
def substrOf (needle hay : String) : Bool :=
  charsContain needle.data hay.data

/-- Modelled from the spec: satisfaction of a text criterion against a
rendered text (§4.2) — a literal requires substring containment; a pattern
requires a pattern match, abstracted here as containment of the pattern's
literal core; non-text values match nothing. -/
def textMatches : JSVal → String → Bool
  | JSVal.str s, t => substrOf s t
  | JSVal.regex p, t => substrOf p t
  | _, _ => false

/-- Modelled from the spec: `findAllByText` of `internals/text` (not under
`src/`) — all elements under the subject matching the descriptor's
text-query fragment whose rendered text satisfies the criterion, in
document order (§4.2). -/
def findAllByText (dom : List Element) (subject : List Element)
    (textQuery : String) (text : JSVal) : List Element :=
  dom.filter fun e =>
    e.sel.contains textQuery
      && (subject.any fun s => strictDesc e.path s.path)
      && textMatches text e.innerText

/-- Insert an element into a list sorted by `le`. -/
def insertBy (le : Element → Element → Bool) (a : Element) :
    List Element → List Element
  | [] => [a]
  | b :: bs => if le a b then a :: b :: bs else b :: insertBy le a bs

/-- Stable insertion sort by `le`. -/
def sortBy (le : Element → Element → Bool) : List Element → List Element
  | [] => []
  | a :: as => insertBy le a (sortBy le as)

/-- Modelled from the spec: `orderByInnerText` of `internals/text` (not
under `src/`) — orders candidates by their rendered inner text before the
specificity selection on the text path. -/
def orderByInnerText (l : List Element) : List Element :=
  sortBy (fun a b => (compare a.innerText b.innerText).isLE) l

/-- Modelled from the spec: `getFirstDeepestElement` of `internals/driver`
(not under `src/`) — among the candidates, the first one with no other
candidate nested inside it (the most specific match, §4.3), as a
one-element collection; empty input yields the empty collection. -/
def getFirstDeepestElement (l : List Element) : List Element :=
  match l.find? (fun c => l.all fun d => !(strictDesc d.path c.path)) with
  | some c => [c]
  | none => []

/-- `mapAll` from `src/index.ts`: map every element of the collection
through the callback, keeping the first element of each result; jQuery's
`map` drops entries for which the callback produced nothing. -/
def mapAll (l : List Element) (cb : Element → List Element) : List Element :=
  l.filterMap fun e => (cb e).head?

/-- Modelled from the spec: a valid component descriptor (§3) — structural
query, optional text-query fragment (text capability), optional traversal
transforms, diagnostic name.  Field names follow the source's usage sites
(`component.query`, `component.textQuery`, `component.traverse`,
`component.traverseViaText`, `component.name`). -/
structure Descriptor where
  query : String
  textQuery : Option String
  traverse : Option (Element → List Element)
  traverseViaText : Option (Element → List Element)
  name : String

/-- The value passed as the command's `component` argument: a valid
descriptor, a React component instance, or something malformed (the string
is its printed form, used in error messages). -/
inductive CompArg where
  | comp : Descriptor → CompArg
  | react : String → CompArg
  | invalid : String → CompArg

/-- Modelled from the spec: the `isComponent` guard of `interfaces` — the
argument satisfies the descriptor shape. -/
def isComponent : CompArg → Bool
  | CompArg.comp _ => true
  | _ => false

/-- Modelled from the spec: the `isReact` guard of `interfaces` — the
argument is a UI-framework component instance. -/
def isReact : CompArg → Bool
  | CompArg.react _ => true
  | _ => false

/-- Modelled from the spec: the `isComponentWithText` guard of
`interfaces` — a valid descriptor that declares text capability (its
text-query fragment is present, §3). -/
def isComponentWithText : CompArg → Bool
  | CompArg.comp d => d.textQuery.isSome
  | _ => false

/-- The three programmer errors `component` can throw, with the message
payload of each `new Error(...)` in `src/index.ts` lines 114-124. -/
inductive CompError where
  | reactError : String → CompError
  | invalidError : String → CompError
  | textCapError : String → CompError
deriving DecidableEq, Repr

/-- The message carried by each error, as built in `src/index.ts`. -/
def errMessage : CompError → String
  | CompError.reactError s =>
      "react-gears-cypress: cannot use a React component as a specification: "
        ++ s
  | CompError.invalidError s =>
      "react-gears-cypress: invalid component specification " ++ s
  | CompError.textCapError n =>
      "react-gears-cypress: trying to find by text, but " ++ n
        ++ " does not implement ComponentWithText"

/-- What one locate attempt produced: the yielded collection, the scope it
searched (the `$subject` of `src/index.ts` line 172), whether the
specificity-reduction branch ran, and which path was taken. -/
structure GetValueResult where
  els : List Element
  subjectUsed : List Element
  reduced : Bool
  tookTextPath : Bool
deriving DecidableEq, Repr

/-- The search-scope precedence stated by the spec (§3): the caller's
previous subject, else the ambient scope, else the document root. -/
def scopeResolve (prevSubject withinSubject : Option (List Element))
    (body : List Element) : List Element :=
  match prevSubject with
  | some s => s
  | none =>
      match withinSubject with
      | some s => s
      | none => body

/-- `getValue` from `src/index.ts` lines 170-193: resolve the subject as
`prevSubject || cy.state('withinSubject') || cy.$$('body')`, then take the
text path when `text` is truthy and the descriptor has text capability
(reducing whenever the candidate set is non-empty and `!options.all`),
else the structural path (reducing only when more than one candidate and
`!options.all`); finally apply the path's traversal transform when present
and the set is non-empty. -/
def getValue (dom : List Element)
    (prevSubject withinSubject : Option (List Element)) (body : List Element)
    (d : Descriptor) (text options : JSVal) : GetValueResult :=
  let subject := scopeResolve prevSubject withinSubject body
  if truthy text && d.textQuery.isSome then
    let el0 := findAllByText dom subject (d.textQuery.getD "") text
    let reduced := el0.length != 0 && !(jsAll options)
    let el1 :=
      if reduced then getFirstDeepestElement (orderByInnerText el0) else el0
    let el2 :=
      match d.traverseViaText with
      | some cb => if el1.length != 0 then mapAll el1 cb else el1
      | none => el1
    { els := el2, subjectUsed := subject, reduced := reduced,
      tookTextPath := true }
  else
    let el0 := jqFind dom subject d.query
    let reduced := decide (el0.length > 1) && !(jsAll options)
    let el1 := if reduced then getFirstDeepestElement el0 else el0
    let el2 :=
      match d.traverse with
      | some cb => if el1.length != 0 then mapAll el1 cb else el1
      | none => el1
    { els := el2, subjectUsed := subject, reduced := reduced,
      tookTextPath := false }

/-- The ambient state one retry attempt sees: the live DOM, the ambient
scope left by a prior scoping operation, and the document root. -/
structure AttemptEnv where
  dom : List Element
  withinSubject : Option (List Element)
  body : List Element

/-- How a `resolve` call settles: success or failure at some attempt
(failure also records the elapsed time), or still pending when the
modelling fuel runs out. -/
inductive Outcome where
  | success : Nat → GetValueResult → Outcome
  | failure : Nat → Nat → GetValueResult → Outcome
  | pending : Outcome
deriving DecidableEq, Repr

/-- The locate result of attempt `n`: `getValue` evaluated against attempt
`n`'s ambient state. -/
def attemptValue (envs : Nat → AttemptEnv)
    (prevSubject : Option (List Element)) (d : Descriptor)
    (text options : JSVal) (n : Nat) : GetValueResult :=
  getValue (envs n).dom prevSubject (envs n).withinSubject (envs n).body d
    text options

/-- Modelled from the spec: the retry loop of `resolveValue`
(`src/index.ts` lines 195-210) delegates waiting, assertion checking and
timeout accounting to the host runner's `verifyUpcomingAssertions`; §4.5
specifies the contract, embedded here as a fuel-indexed loop.  Each
attempt re-runs `getValue` against that attempt's ambient state, hands the
result to the assertion check `passes`; on a pass it settles successfully;
on a failure it settles as a failure once the elapsed time has reached
`timeout`, and otherwise waits `interval` and retries. -/
def resolveLoop (envs : Nat → AttemptEnv)
    (prevSubject : Option (List Element)) (d : Descriptor)
    (text options : JSVal) (passes : Nat → GetValueResult → Bool)
    (timeout interval : Nat) : Nat → Nat → Nat → Outcome
  | 0, _, _ => Outcome.pending
  | fuel + 1, n, elapsed =>
      let r := attemptValue envs prevSubject d text options n
      if passes n r then Outcome.success n r
      else if timeout ≤ elapsed then Outcome.failure n elapsed r
      else
        resolveLoop envs prevSubject d text options passes timeout interval
          fuel (n + 1) (elapsed + interval)

/-- The `component` command (`src/index.ts` lines 106-211): normalize the
options and extract the text criterion from the trailing arguments,
validate the component argument (throwing before any DOM access), decide
whether a log entry is created (`options.log !== false`), and hand the
locate closure to the retry machinery with the effective timeout.  Returns
the thrown error, or the log-creation flag paired with the settled
outcome. -/
def component (ambientTimeout : Nat) (envs : Nat → AttemptEnv)
    (prevSubject : Option (List Element)) (c : CompArg) (rest : List JSVal)
    (passes : Nat → GetValueResult → Bool) (interval fuel : Nat) :
    Except CompError (Bool × Outcome) :=
  let options := normalizeOptions ambientTimeout rest
  let text := getText rest
  match c with
  | CompArg.react s => Except.error (CompError.reactError s)
  | CompArg.invalid s => Except.error (CompError.invalidError s)
  | CompArg.comp d =>
      if truthy text && !d.textQuery.isSome then
        Except.error (CompError.textCapError d.name)
      else
        Except.ok (logGate options,
          resolveLoop envs prevSubject d text options passes
            (timeoutOf ambientTimeout options) interval fuel 0 0)

/-- `undefined` is falsy. -/
theorem truthy_undef : truthy JSVal.undef = false := rfl

/-- Unfolding of `normalizeOptions` with its `let` inlined. -/
theorem normalizeOptions_eq (ambientTimeout : Nat) (rest : List JSVal) :
    normalizeOptions ambientTimeout rest
      = if truthy (getOptions rest) = true then getOptions rest
        else JSVal.opts (deflRec ambientTimeout) := rfl

/-- The printed form of the component argument, as interpolated into the
error messages of `src/index.ts` lines 117-118 (`name` for a valid
descriptor, the printed value otherwise). -/
def argDesc : CompArg → String
  | CompArg.comp d => d.name
  | CompArg.react s => s
  | CompArg.invalid s => s

/-- A concrete descriptor without text capability, used as a test input. -/
def noTextDesc : Descriptor :=
  { query := "input", textQuery := none, traverse := none,
    traverseViaText := none, name := "Input" }

/-- A concrete descriptor with text capability, used as a test input. -/
def labelDesc : Descriptor :=
  { query := "div.form-group", textQuery := some "label", traverse := none,
    traverseViaText := none, name := "Input" }

/-- C1: the claim says every missing field of a partial options record is
filled from the defaults.  Evaluating `normalizeOptions` at the record
supplying only `all=true` shows it is returned unchanged: `log` and
`timeout` stay absent, contradicting the claim and the source's own
comment ("Return a full hash of options w/ default values for anything not
overrridden"). -/
theorem C1_partial_options_not_merged :
    normalizeOptions 4000 [JSVal.opts ⟨some true, none, none⟩]
        = JSVal.opts ⟨some true, none, none⟩
      ∧ logField (normalizeOptions 4000 [JSVal.opts ⟨some true, none, none⟩])
          = none
      ∧ timeoutField
            (normalizeOptions 4000 [JSVal.opts ⟨some true, none, none⟩])
          = none
      ∧ normalizeOptions 4000 [JSVal.opts ⟨some true, none, none⟩]
          ≠ JSVal.opts ⟨some true, some true, some 4000⟩ :=
  ⟨rfl, rfl, rfl, by decide⟩

/-- C3 counterexample: an empty-string text criterion is supplied (the
first trailing argument is text-like, so `getText` recognizes it) against
a descriptor without text capability, yet no programmer error is raised —
the validation guard tests the criterion's truthiness, and the empty
string is falsy, so the call proceeds to the structural path. -/
theorem C3_counterexample :
    getText [JSVal.str ""] = JSVal.str ""
      ∧ isComponentWithText (CompArg.comp noTextDesc) = false
      ∧ component 4000 (fun _ => ⟨[], none, []⟩) none (CompArg.comp noTextDesc)
          [JSVal.str ""] (fun _ _ => true) 100 1
          = Except.ok (true, Outcome.success 0 ⟨[], [], false, false⟩) :=
  ⟨rfl, rfl, rfl⟩

/-- C3 (amended): for every call where a truthy text criterion is supplied
together with an argument lacking text capability, a programmer error is
raised, the same one for every DOM state (so before any DOM query and
before the retry loop is entered), even with zero candidates present. -/
theorem C3_truthy_text_needs_capability :
    ∀ (ambientTimeout : Nat) (prevSubject : Option (List Element))
      (c : CompArg) (rest : List JSVal) (passes : Nat → GetValueResult → Bool)
      (interval fuel : Nat),
      truthy (getText rest) = true →
      isComponentWithText c = false →
      ∀ envs : Nat → AttemptEnv,
        component ambientTimeout envs prevSubject c rest passes interval fuel
          = Except.error
              (if isReact c then CompError.reactError (argDesc c)
               else if isComponent c then CompError.textCapError (argDesc c)
               else CompError.invalidError (argDesc c)) := by
  intro aT prev c rest passes interval fuel htext hcap envs
  cases c with
  | react s => rfl
  | invalid s => rfl
  | comp d =>
      simp only [isComponentWithText] at hcap
      simp [component, isReact, isComponent, argDesc, htext, hcap]

/-- Witness for C3: the amended theorem applied to a concrete call —
descriptor `Input` without text capability, criterion `"Name"`. -/
theorem C3_truthy_text_needs_capability_witness :
    component 4000 (fun _ => ⟨[], none, []⟩) none (CompArg.comp noTextDesc)
        [JSVal.str "Name"] (fun _ _ => true) 100 1
      = Except.error (CompError.textCapError "Input") :=
  C3_truthy_text_needs_capability 4000 none (CompArg.comp noTextDesc)
    [JSVal.str "Name"] (fun _ _ => true) 100 1 (by decide) (by decide)
    (fun _ => ⟨[], none, []⟩)

/-- C4: a React component instance passed as the component argument raises
the dedicated react error; any other invalid argument raises the generic
invalid-specification error; the two errors are distinct (as values and in
their messages); both are raised immediately (the same error for every
DOM state and retry configuration). -/
theorem C4_react_error_distinct :
    ∀ (ambientTimeout : Nat) (envs : Nat → AttemptEnv)
      (prevSubject : Option (List Element)) (c : CompArg) (rest : List JSVal)
      (passes : Nat → GetValueResult → Bool) (interval fuel : Nat)
      (s t : String),
      (isReact c = true →
        component ambientTimeout envs prevSubject c rest passes interval fuel
          = Except.error (CompError.reactError (argDesc c)))
      ∧ (isComponent c = false → isReact c = false →
        component ambientTimeout envs prevSubject c rest passes interval fuel
          = Except.error (CompError.invalidError (argDesc c)))
      ∧ CompError.reactError s ≠ CompError.invalidError t
      ∧ errMessage (CompError.reactError s)
          ≠ errMessage (CompError.invalidError t) := by
  intro aT envs prev c rest passes interval fuel s t
  refine ⟨?_, ?_, by simp, ?_⟩
  · intro h
    cases c with
    | react u => rfl
    | comp d => simp [isReact] at h
    | invalid u => simp [isReact] at h
  · intro h1 h2
    cases c with
    | invalid u => rfl
    | comp d => simp [isComponent] at h1
    | react u => simp [isReact] at h2
  · simp only [errMessage]
    intro h
    have h2 := congrArg String.data h
    rw [show ∀ a b : String, (a ++ b).data = a.data ++ b.data from
          fun _ _ => rfl,
        show ∀ a b : String, (a ++ b).data = a.data ++ b.data from
          fun _ _ => rfl] at h2
    have h3 := congrArg (fun l => l[21]?) h2
    simp only [List.getElem?_append] at h3
    rw [if_pos (by decide), if_pos (by decide)] at h3
    exact absurd h3 (by decide)

/-- Witness for C4: the theorem applied to a concrete React instance and a
concrete malformed argument. -/
theorem C4_react_error_distinct_witness :
    component 4000 (fun _ => ⟨[], none, []⟩) none (CompArg.react "MyWidget")
        [] (fun _ _ => true) 100 1
      = Except.error (CompError.reactError "MyWidget") :=
  (C4_react_error_distinct 4000 (fun _ => ⟨[], none, []⟩) none
      (CompArg.react "MyWidget") [] (fun _ _ => true) 100 1 "a" "b").1 rfl

/-- C5: with exactly one trailing argument that is not text-like, it is
treated as the options value (when truthy it becomes the resolved options,
falsy values fall back to the defaults exactly as an explicit options
value would under the source's `getOptions(rest) || defl`) and no text
criterion is recognized; with two trailing arguments the second is always
the options value; a text criterion is recognized only when the first
trailing argument is text-like. -/
theorem C5_trailing_argument_resolution :
    ∀ (ambientTimeout : Nat) (v a b : JSVal),
      (isText v = false →
        getText [v] = JSVal.undef
          ∧ normalizeOptions ambientTimeout [v]
              = if truthy v then v else JSVal.opts (deflRec ambientTimeout))
      ∧ getOptions [a, b] = b
      ∧ (∀ rest : List JSVal,
          getText rest ≠ JSVal.undef → isText (rest.getD 0 JSVal.undef) = true)
      := by
  intro aT v a b
  refine ⟨?_, rfl, ?_⟩
  · intro h
    have hg : getOptions [v] = if truthy v = true then v else JSVal.undef := by
      cases htv : truthy v <;> simp [getOptions, h, htv]
    refine ⟨by simp [getText, h], ?_⟩
    rw [normalizeOptions_eq, hg]
    cases htv : truthy v <;> simp [htv, truthy_undef]
  · intro rest h
    cases hit : isText (rest.getD 0 JSVal.undef) with
    | true => rfl
    | false =>
        unfold getText at h
        rw [hit] at h
        simp at h

/-- Witness for C5: the theorem applied at a single `null` trailing
argument (not text-like, falsy) and at a concrete two-argument list. -/
theorem C5_trailing_argument_resolution_witness :
    (getText [JSVal.nullV] = JSVal.undef
        ∧ normalizeOptions 4000 [JSVal.nullV]
            = if truthy JSVal.nullV then JSVal.nullV
              else JSVal.opts (deflRec 4000))
      ∧ getOptions [JSVal.num 7, JSVal.opts ⟨some true, none, none⟩]
          = JSVal.opts ⟨some true, none, none⟩ :=
  ⟨(C5_trailing_argument_resolution 4000 JSVal.nullV (JSVal.num 7)
      (JSVal.opts ⟨some true, none, none⟩)).1 (by decide),
   (C5_trailing_argument_resolution 4000 JSVal.nullV (JSVal.num 7)
      (JSVal.opts ⟨some true, none, none⟩)).2.1⟩

/-- C9: with two trailing arguments whose first is not text-like, the
first is silently ignored — no text criterion is recognized, the call
raises no error, the second argument is the options value, and the locate
closure takes the structural path. -/
theorem C9_non_text_first_argument_ignored :
    ∀ (ambientTimeout : Nat) (envs : Nat → AttemptEnv)
      (prevSubject : Option (List Element)) (d : Descriptor) (a b : JSVal)
      (passes : Nat → GetValueResult → Bool) (interval fuel : Nat),
      isText a = false →
      getText [a, b] = JSVal.undef
        ∧ getOptions [a, b] = b
        ∧ (component ambientTimeout envs prevSubject (CompArg.comp d) [a, b]
              passes interval fuel).isOk = true
        ∧ ∀ (dom : List Element) (prev within : Option (List Element))
            (body : List Element) (options : JSVal),
            (getValue dom prev within body d (getText [a, b])
                options).tookTextPath = false := by
  intro aT envs prev d a b passes interval fuel h
  have htext : getText [a, b] = JSVal.undef := by simp [getText, h]
  refine ⟨htext, rfl, ?_, ?_⟩
  · simp [component, htext, truthy_undef, Except.isOk, Except.toBool]
  · intro dom prev2 within body options
    simp [getValue, htext, truthy_undef]

/-- Witness for C9: the theorem applied to a concrete call passing a
number first and an options record second. -/
theorem C9_non_text_first_argument_ignored_witness :
    getText [JSVal.num 7, JSVal.opts ⟨some true, none, none⟩] = JSVal.undef
      ∧ getOptions [JSVal.num 7, JSVal.opts ⟨some true, none, none⟩]
          = JSVal.opts ⟨some true, none, none⟩
      ∧ (component 4000 (fun _ => ⟨[], none, []⟩) none
            (CompArg.comp noTextDesc)
            [JSVal.num 7, JSVal.opts ⟨some true, none, none⟩]
            (fun _ _ => true) 100 1).isOk = true
      ∧ (getValue [] none none [] noTextDesc
            (getText [JSVal.num 7, JSVal.opts ⟨some true, none, none⟩])
            JSVal.undef).tookTextPath = false := by
  have h := C9_non_text_first_argument_ignored 4000 (fun _ => ⟨[], none, []⟩)
    none noTextDesc (JSVal.num 7) (JSVal.opts ⟨some true, none, none⟩)
    (fun _ _ => true) 100 1 (by decide)
  exact ⟨h.1, h.2.1, h.2.2.1, h.2.2.2 [] none none [] JSVal.undef⟩

/-- A concrete document root, used as a test input. -/
def demoBody : Element := { path := [], sel := ["body"], innerText := "" }

/-- A concrete label element under the root, used as a test input. -/
def demoLabel : Element :=
  { path := [0], sel := ["label"], innerText := "First Name" }

/-- A concrete two-element document, used as a test input. -/
def demoDom : List Element := [demoBody, demoLabel]

/-- Reducing a one-element candidate set yields that same set: ordering a
singleton is the identity, and the single candidate has no other candidate
nested inside it. -/
theorem reduce_singleton (e : Element) :
    getFirstDeepestElement (orderByInnerText [e]) = [e] := by
  have h1 : strictDesc e.path e.path = false := by simp [strictDesc]
  simp [orderByInnerText, sortBy, insertBy, getFirstDeepestElement,
    List.find?, h1]

/-- C2 counterexample: a locate attempt on the text path with
`options.all` false and exactly one candidate still runs the specificity
reduction — the source guards it with `$el.length`, not `$el.length > 1`,
so the claim's "applied only when more than one candidate exists" is false
on the text path. -/
theorem C2_counterexample :
    (findAllByText demoDom [demoBody] "label" (JSVal.str "Name")).length = 1
      ∧ jsAll JSVal.undef = false
      ∧ (getValue demoDom none none [demoBody] labelDesc (JSVal.str "Name")
            JSVal.undef).reduced = true :=
  ⟨rfl, rfl, rfl⟩

/-- C2 (amended): with `options.all` false, the structural path applies
the specificity reduction exactly when more than one candidate exists,
while the text path applies it exactly when at least one candidate exists;
on either path, when the candidate set has zero or one elements the
candidate set reaching the traversal transform is unchanged (the reduction
of a singleton returns that singleton). -/
theorem C2_reduction_condition :
    ∀ (dom : List Element) (prevS withinS : Option (List Element))
      (body : List Element) (d : Descriptor) (text options : JSVal),
      jsAll options = false →
      ((truthy text && d.textQuery.isSome) = true →
        ((getValue dom prevS withinS body d text options).reduced = true
          ↔ 0 < (findAllByText dom (scopeResolve prevS withinS body)
                  (d.textQuery.getD "") text).length)
        ∧ (d.traverseViaText = none →
            (findAllByText dom (scopeResolve prevS withinS body)
                (d.textQuery.getD "") text).length ≤ 1 →
            (getValue dom prevS withinS body d text options).els
              = findAllByText dom (scopeResolve prevS withinS body)
                  (d.textQuery.getD "") text))
      ∧ ((truthy text && d.textQuery.isSome) = false →
        ((getValue dom prevS withinS body d text options).reduced = true
          ↔ 1 < (jqFind dom (scopeResolve prevS withinS body) d.query).length)
        ∧ (d.traverse = none →
            (jqFind dom (scopeResolve prevS withinS body) d.query).length ≤ 1 →
            (getValue dom prevS withinS body d text options).els
              = jqFind dom (scopeResolve prevS withinS body) d.query)) := by
  intro dom prevS withinS body d text options hall
  constructor
  · intro hpath
    have hv :
        getValue dom prevS withinS body d text options
          = let el0 := findAllByText dom (scopeResolve prevS withinS body)
              (d.textQuery.getD "") text
            let el1 := if el0.length != 0 then
                getFirstDeepestElement (orderByInnerText el0)
              else el0
            let el2 := match d.traverseViaText with
              | some cb => if el1.length != 0 then mapAll el1 cb else el1
              | none => el1
            ⟨el2, scopeResolve prevS withinS body, el0.length != 0, true⟩ := by
      simp [getValue, hpath, hall]
    constructor
    · rw [hv]
      cases hlen : (findAllByText dom (scopeResolve prevS withinS body)
          (d.textQuery.getD "") text).length with
      | zero => simp [hlen]
      | succ k => simp [hlen]
    · intro htv hle
      rw [hv]
      simp only [htv]
      rcases hlen : (findAllByText dom (scopeResolve prevS withinS body)
          (d.textQuery.getD "") text) with - | ⟨c, rest⟩
      · simp [hlen]
      · rcases rest with - | ⟨c2, rest2⟩
        · simp [hlen, reduce_singleton]
        · rw [hlen] at hle
          simp at hle
  · intro hpath
    have hv :
        getValue dom prevS withinS body d text options
          = let el0 := jqFind dom (scopeResolve prevS withinS body) d.query
            let el1 := if decide (el0.length > 1) then
                getFirstDeepestElement el0
              else el0
            let el2 := match d.traverse with
              | some cb => if el1.length != 0 then mapAll el1 cb else el1
              | none => el1
            ⟨el2, scopeResolve prevS withinS body, decide (el0.length > 1),
              false⟩ := by
      simp [getValue, hpath, hall]
    constructor
    · rw [hv]
      simp
    · intro htv hle
      rw [hv]
      simp only [htv]
      have hnot : decide ((jqFind dom (scopeResolve prevS withinS body)
          d.query).length > 1) = false := by
        simp
        omega
      simp [hnot]

/-- Witness for C2 (amended): a structural-path call with a single
candidate — the reduction does not run and the candidate passes through. -/
theorem C2_reduction_condition_witness :
    ((getValue [demoBody, demoLabel] none none [demoBody] noTextDesc
          JSVal.undef JSVal.undef).reduced = true
        ↔ 1 < (jqFind [demoBody, demoLabel]
                (scopeResolve none none [demoBody]) "input").length)
      ∧ ((getValue [demoBody, demoLabel] none none [demoBody] noTextDesc
            JSVal.undef JSVal.undef).els
          = jqFind [demoBody, demoLabel] (scopeResolve none none [demoBody])
              "input") := by
  have h := (C2_reduction_condition [demoBody, demoLabel] none none [demoBody]
    noTextDesc JSVal.undef JSVal.undef rfl).2 (by decide)
  exact ⟨h.1, h.2 rfl (by decide)⟩

/-- C6: with `options.all` true the reduction branch never runs on either
path, and (absent a traversal transform) the yielded set is exactly the
full candidate set, a sublist of the document — every matched candidate,
in document order. -/
theorem C6_all_keeps_every_candidate :
    ∀ (dom : List Element) (prevS withinS : Option (List Element))
      (body : List Element) (d : Descriptor) (text options : JSVal),
      jsAll options = true →
      (getValue dom prevS withinS body d text options).reduced = false
      ∧ ((truthy text && d.textQuery.isSome) = true →
          List.Sublist (findAllByText dom (scopeResolve prevS withinS body)
              (d.textQuery.getD "") text) dom
          ∧ (d.traverseViaText = none →
              (getValue dom prevS withinS body d text options).els
                = findAllByText dom (scopeResolve prevS withinS body)
                    (d.textQuery.getD "") text))
      ∧ ((truthy text && d.textQuery.isSome) = false →
          List.Sublist (jqFind dom (scopeResolve prevS withinS body) d.query)
            dom
          ∧ (d.traverse = none →
              (getValue dom prevS withinS body d text options).els
                = jqFind dom (scopeResolve prevS withinS body) d.query)) := by
  intro dom prevS withinS body d text options hall
  refine ⟨?_, ?_, ?_⟩
  · cases hpath : (truthy text && d.textQuery.isSome) <;>
      simp [getValue, hpath, hall]
  · intro hpath
    exact ⟨List.filter_sublist dom, by intro htv; simp [getValue, hpath, hall, htv]⟩
  · intro hpath
    exact ⟨List.filter_sublist dom, by intro htv; simp [getValue, hpath, hall, htv]⟩

/-- Witness for C6: a text-path call with `all=true` and two nested
matching elements — both are kept. -/
theorem C6_all_keeps_every_candidate_witness :
    (getValue demoDom none none [demoBody] labelDesc (JSVal.str "Name")
        (JSVal.opts ⟨some true, none, none⟩)).reduced = false
      ∧ (getValue demoDom none none [demoBody] labelDesc (JSVal.str "Name")
            (JSVal.opts ⟨some true, none, none⟩)).els
          = findAllByText demoDom (scopeResolve none none [demoBody]) "label"
              (JSVal.str "Name") := by
  have h := C6_all_keeps_every_candidate demoDom none none [demoBody]
    labelDesc (JSVal.str "Name") (JSVal.opts ⟨some true, none, none⟩) rfl
  exact ⟨h.1, (h.2.1 (by decide)).2 rfl⟩

/-- C7: the search scope used by a locate attempt is the caller-supplied
previous subject, else the ambient scope, else the document root, in that
precedence order; and whichever attempt the retry loop settles on, the
result it carries was computed by `getValue` against that attempt's own
ambient state — the scope resolution happens freshly inside every attempt,
never cached from an earlier one. -/
theorem C7_fresh_scope_resolution :
    (∀ (dom : List Element) (prevS withinS : Option (List Element))
        (body : List Element) (d : Descriptor) (text options : JSVal),
        (getValue dom prevS withinS body d text options).subjectUsed
          = scopeResolve prevS withinS body)
    ∧ ∀ (envs : Nat → AttemptEnv) (prevS : Option (List Element))
        (d : Descriptor) (text options : JSVal)
        (passes : Nat → GetValueResult → Bool) (timeout interval fuel n e m ef
          : Nat) (r : GetValueResult),
        (resolveLoop envs prevS d text options passes timeout interval fuel n e
            = Outcome.success m r
          ∨ resolveLoop envs prevS d text options passes timeout interval fuel
              n e = Outcome.failure m ef r) →
        r = attemptValue envs prevS d text options m
          ∧ r.subjectUsed
              = scopeResolve prevS (envs m).withinSubject (envs m).body := by
  have hsub : ∀ (dom : List Element) (prevS withinS : Option (List Element))
      (body : List Element) (d : Descriptor) (text options : JSVal),
      (getValue dom prevS withinS body d text options).subjectUsed
        = scopeResolve prevS withinS body := by
    intro dom prevS withinS body d text options
    cases hpath : (truthy text && d.textQuery.isSome) <;>
      simp [getValue, hpath]
  refine ⟨hsub, ?_⟩
  intro envs prevS d text options passes timeout interval fuel
  induction fuel with
  | zero =>
      intro n e m ef r h
      cases h with
      | inl h => exact absurd h (by simp [resolveLoop])
      | inr h => exact absurd h (by simp [resolveLoop])
  | succ fuel ih =>
      intro n e m ef r h
      have hval : r = attemptValue envs prevS d text options m := by
        cases h with
        | inl h =>
            simp only [resolveLoop] at h
            split at h
            · rw [Outcome.success.injEq] at h
              obtain ⟨h1, h2⟩ := h
              subst h1
              exact h2.symm
            · split at h
              · exact absurd h (by simp)
              · exact (ih (n + 1) (e + interval) m ef r (Or.inl h)).1
        | inr h =>
            simp only [resolveLoop] at h
            split at h
            · exact absurd h (by simp)
            · split at h
              · rw [Outcome.failure.injEq] at h
                obtain ⟨h1, h2, h3⟩ := h
                subst h1
                exact h3.symm
              · exact (ih (n + 1) (e + interval) m ef r (Or.inr h)).1
      refine ⟨hval, ?_⟩
      rw [hval]
      exact hsub (envs m).dom prevS (envs m).withinSubject (envs m).body d
        text options

/-- Witness for C7: a one-attempt loop whose assertion passes at once; the
carried result was computed against attempt 0's ambient state and its
scope is the ambient scope (no previous subject supplied). -/
theorem C7_fresh_scope_resolution_witness :
    GetValueResult.mk [] [demoLabel] false false
        = attemptValue (fun _ => ⟨[], some [demoLabel], [demoBody]⟩) none
            noTextDesc JSVal.undef JSVal.undef 0
      ∧ (GetValueResult.mk [] [demoLabel] false false).subjectUsed
          = scopeResolve none
              ((fun _ : Nat => AttemptEnv.mk [] (some [demoLabel]) [demoBody])
                  0).withinSubject
              ((fun _ : Nat => AttemptEnv.mk [] (some [demoLabel]) [demoBody])
                  0).body :=
  C7_fresh_scope_resolution.2
    (fun _ => ⟨[], some [demoLabel], [demoBody]⟩) none noTextDesc JSVal.undef
    JSVal.undef (fun _ _ => true) 0 0 1 0 0 0 0
    (GetValueResult.mk [] [demoLabel] false false) (Or.inl rfl)

/-- C8: when no assertion check ever passes, the retry loop settles as
failure only with elapsed time at or beyond the timeout (never strictly
before), it does settle as failure once the fuel's time budget reaches the
timeout, and a zero timeout settles as failure immediately on the first
failed attempt. -/
theorem C8_timeout_boundary :
    ∀ (envs : Nat → AttemptEnv) (prevS : Option (List Element))
      (d : Descriptor) (text options : JSVal)
      (passes : Nat → GetValueResult → Bool) (timeout interval : Nat),
      (∀ n r, passes n r = false) →
      (∀ fuel n e m ef r,
          resolveLoop envs prevS d text options passes timeout interval fuel
              n e = Outcome.failure m ef r →
          timeout ≤ ef)
      ∧ (∀ fuel n e, timeout ≤ e + fuel * interval →
          ∃ m ef r,
            resolveLoop envs prevS d text options passes timeout interval
                (fuel + 1) n e = Outcome.failure m ef r)
      ∧ (timeout = 0 → ∀ fuel n,
          resolveLoop envs prevS d text options passes timeout interval
              (fuel + 1) n 0
            = Outcome.failure n 0 (attemptValue envs prevS d text options n))
      := by
  intro envs prevS d text options passes timeout interval hfail
  refine ⟨?_, ?_, ?_⟩
  · intro fuel
    induction fuel with
    | zero =>
        intro n e m ef r h
        exact absurd h (by simp [resolveLoop])
    | succ fuel ih =>
        intro n e m ef r h
        simp only [resolveLoop] at h
        split at h
        · exact absurd h (by simp)
        · split at h
          · rw [Outcome.failure.injEq] at h
            omega
          · exact ih (n + 1) (e + interval) m ef r h
  · intro fuel
    induction fuel with
    | zero =>
        intro n e he
        simp only [Nat.zero_mul, Nat.add_zero] at he
        refine ⟨n, e, attemptValue envs prevS d text options n, ?_⟩
        simp [resolveLoop, hfail, he]
    | succ fuel ih =>
        intro n e he
        by_cases hto : timeout ≤ e
        · refine ⟨n, e, attemptValue envs prevS d text options n, ?_⟩
          simp [resolveLoop, hfail, hto]
        · obtain ⟨m, ef, r, hr⟩ := ih (n + 1) (e + interval) (by
            have : e + (fuel + 1) * interval
                = (e + interval) + fuel * interval := by ring
            omega)
          refine ⟨m, ef, r, ?_⟩
          simp only [resolveLoop, hfail, Bool.false_eq_true, if_false]
          rw [if_neg (by omega)]
          simp only [resolveLoop, hfail, Bool.false_eq_true, if_false] at hr
          exact hr
  · intro hzero fuel n
    simp [resolveLoop, hfail, hzero]

/-- Witness for C8: with every assertion failing and timeout 0, a concrete
loop settles as failure at attempt 0 with elapsed time 0. -/
theorem C8_timeout_boundary_witness :
    resolveLoop (fun _ => ⟨[], none, [demoBody]⟩) none noTextDesc JSVal.undef
        JSVal.undef (fun _ _ => false) 0 100 1 0 0
      = Outcome.failure 0 0
          (attemptValue (fun _ => ⟨[], none, [demoBody]⟩) none noTextDesc
            JSVal.undef JSVal.undef 0) :=
  (C8_timeout_boundary (fun _ => ⟨[], none, [demoBody]⟩) none noTextDesc
      JSVal.undef JSVal.undef (fun _ _ => false) 0 100
      (fun _ _ => rfl)).2.2 rfl 0 0

/-- C10 counterexample: a call whose resolved options' `log` field is not
`false` but which throws at validation creates no log entry — the claim's
"for every call" iff fails for calls that error out before the logging
block. -/
theorem C10_counterexample :
    component 4000 (fun _ => ⟨[], none, []⟩) none (CompArg.invalid "garbage")
        [JSVal.opts ⟨none, some true, none⟩] (fun _ _ => true) 100 1
      = Except.error (CompError.invalidError "garbage")
      ∧ logField (normalizeOptions 4000 [JSVal.opts ⟨none, some true, none⟩])
          ≠ some false :=
  ⟨rfl, by decide⟩

/-- C10 (amended): for every call that passes validation, a log entry is
created if and only if the resolved options' `log` field is not strictly
`false`; in particular a caller-supplied record omitting `log` still
produces a log entry. -/
theorem C10_log_unless_false :
    ∀ (ambientTimeout : Nat) (envs : Nat → AttemptEnv)
      (prevS : Option (List Element)) (c : CompArg) (rest : List JSVal)
      (passes : Nat → GetValueResult → Bool) (interval fuel : Nat) (b : Bool)
      (out : Outcome),
      component ambientTimeout envs prevS c rest passes interval fuel
        = Except.ok (b, out) →
      (b = true ↔ logField (normalizeOptions ambientTimeout rest) ≠ some false)
      ∧ (logField (normalizeOptions ambientTimeout rest) = none → b = true)
      := by
  intro aT envs prevS c rest passes interval fuel b out h
  have hb : b = logGate (normalizeOptions aT rest) := by
    cases c with
    | react s => exact absurd h (by simp [component])
    | invalid s => exact absurd h (by simp [component])
    | comp d =>
        simp only [component] at h
        split at h
        · exact absurd h (by simp)
        · rw [Except.ok.injEq, Prod.mk.injEq] at h
          exact h.1.symm
  rw [hb]
  cases hlf : logField (normalizeOptions aT rest) with
  | none => simp [logGate, hlf]
  | some v => cases v <;> simp [logGate, hlf]

/-- Witness for C10: a valid call supplying only `all=true`, so `log` is
absent from the resolved options, still sets the log flag. -/
theorem C10_log_unless_false_witness :
    (true = true
        ↔ logField (normalizeOptions 4000 [JSVal.opts ⟨some true, none, none⟩])
            ≠ some false)
      ∧ (logField (normalizeOptions 4000 [JSVal.opts ⟨some true, none, none⟩])
            = none → true = true) :=
  C10_log_unless_false 4000 (fun _ => ⟨[], none, []⟩) none
    (CompArg.comp noTextDesc) [JSVal.opts ⟨some true, none, none⟩]
    (fun _ _ => true) 100 1 true
    (Outcome.success 0 ⟨[], [], false, false⟩) rfl

end Gears
